import Mathlib

/-!
Verification of the operator-log component (`src/components/operator-log/src/lib.rs`)
of the warg registry.

The component under `src/` wraps the repository's `warg_protocol::operator` and
`warg_crypto` crates, whose bodies are not part of the provided sources; those
inner pieces (the binary record codec, the string forms of keys, hashes and
signatures, the hash primitive and the log-state validation) are modelled from
the specification, each marked `Modelled from the spec:` in its doc comment.
The component-level functions `encode`, `decode`, `append` and `log_id` are
translated directly from the Rust source.

Strings are represented as lists of natural numbers (unicode scalar values),
and byte buffers as lists of natural numbers as well, so that every definition
is executable and every concrete evaluation can be settled by `decide`.
-/

/-- Strings of the embedding: a list of character codes. -/
abbrev Str := List Nat

namespace Crypto

/-- Modelled from the spec: the single supported digest algorithm (`Sha256`);
the algorithm set is a closed enumeration with one member. -/
inductive HashAlgorithm where
  | sha256
deriving DecidableEq, Repr

/-- Modelled from the spec: a self-describing hash value, algorithm tag plus
digest bytes (`AnyHash` in `warg_crypto::hash`). -/
structure AnyHash where
  algo : HashAlgorithm
  bytes : List Nat
deriving DecidableEq, Repr

/-- Modelled from the spec: a parsed public key (`warg_crypto::signing::PublicKey`),
carrying its raw key material. -/
structure PublicKey where
  bytes : List Nat
deriving DecidableEq, Repr

/-- Modelled from the spec: a parsed signature value (`warg_crypto::signing::Signature`). -/
structure Signature where
  bytes : List Nat
deriving DecidableEq, Repr

/-- Key identities are string thumbprints (`warg_crypto::signing::KeyID`). -/
abbrev KeyId := Str

/-- Modelled from the spec: the opaque hash primitive (`Sha256::digest`).  The
spec treats hashing as an external capability `hash(bytes) -> Digest`; any
deterministic function of the bytes serves the embedding. -/
def sha256Hash (bs : List Nat) : List Nat :=
  [bs.foldl (fun a b => (a * 131 + b + 1) % 4294967291) 7, bs.length]

/-- Character code of the colon separating a tag from a payload in the textual
forms of hashes, keys and signatures. -/
def colon : Nat := 58

/-- Character codes of the algorithm label `sha256`. -/
def sha256Label : Str := [115, 104, 97, 50, 53, 54]

/-- Tag opening the textual form of a hash value. -/
def hashTag : Str := sha256Label ++ [colon]

/-- Tag opening the textual form of a public key. -/
def keyTag : Str := [101, 99, 100, 115, 97] ++ [colon]

/-- Tag opening the textual form of a signature. -/
def sigTag : Str := [115, 105, 103] ++ [colon]

/-- Strip a literal tag from the front of a string, failing when the string
does not open with the tag. -/
def stripTag (tag s : Str) : Option Str :=
  if s.take tag.length = tag then some (s.drop tag.length) else none

/-- Modelled from the spec: textual form of a hash value, `algorithm:digest`. -/
def AnyHash.toStr (h : AnyHash) : Str :=
  hashTag ++ h.bytes

/-- Modelled from the spec: parse the textual form of a hash value, failing
distinctly on malformed input (`AnyHash::from_str`). -/
def AnyHash.fromStr (s : Str) : Option AnyHash :=
  (stripTag hashTag s).map (fun bs => AnyHash.mk HashAlgorithm.sha256 bs)

/-- Modelled from the spec: textual form of the hash algorithm
(`HashAlgorithm::to_string`). -/
def HashAlgorithm.toStr : HashAlgorithm → Str
  | HashAlgorithm.sha256 => sha256Label

/-- Modelled from the spec: parse a hash algorithm name
(`HashAlgorithm::from_str`), failing on unsupported names. -/
def HashAlgorithm.fromStr (s : Str) : Option HashAlgorithm :=
  if s = sha256Label then some HashAlgorithm.sha256 else none

/-- Modelled from the spec: textual form of a public key (`PublicKey::to_string`). -/
def PublicKey.toStr (k : PublicKey) : Str :=
  keyTag ++ k.bytes

/-- Modelled from the spec: parse the textual form of a public key, failing
distinctly on malformed input (`PublicKey::from_str`). -/
def PublicKey.fromStr (s : Str) : Option PublicKey :=
  (stripTag keyTag s).map PublicKey.mk

/-- Modelled from the spec: textual form of a signature (`Signature::to_string`). -/
def Signature.toStr (s : Signature) : Str :=
  sigTag ++ s.bytes

/-- Modelled from the spec: parse the textual form of a signature, failing
distinctly on malformed input (`Signature::from_str`). -/
def Signature.fromStr (s : Str) : Option Signature :=
  (stripTag sigTag s).map Signature.mk

/-- Modelled from the spec: the key identity (fingerprint) of a public key. -/
def keyIdOf (k : PublicKey) : KeyId :=
  AnyHash.toStr (AnyHash.mk HashAlgorithm.sha256 (sha256Hash k.bytes))

/-- Modelled from the spec: signature verification,
`verify(public_key, bytes, sig) -> bool`.  A signature is valid exactly when
it equals the deterministic signing function of the key and message. -/
def verify (k : PublicKey) (msg : List Nat) (s : Signature) : Bool :=
  s.bytes = sha256Hash (k.bytes ++ msg)

end Crypto

namespace Proto

open Crypto

/-- Modelled from the spec: the closed permission enumeration.  Only `Commit`
is defined; `other` is the extensibility hook for permission tags outside the
closed set, which the wire format can carry and decoding must reject. -/
inductive Permission where
  | commit
  | other (tag : Nat)
deriving DecidableEq, Repr

/-- Modelled from the spec: one authorization operation
(`warg_protocol::operator::OperatorEntry`).  `unknown` is the extensibility
hook for entry variants outside the closed set `{Init, GrantFlat, RevokeFlat}`. -/
inductive OperatorEntry where
  | init (hash_algorithm : HashAlgorithm) (key : PublicKey)
  | grantFlat (key : PublicKey) (permission : Permission)
  | revokeFlat (key_id : KeyId) (permission : Permission)
  | unknown (tag : Nat)
deriving DecidableEq, Repr

/-- Modelled from the spec: a point in time as kept by the inner record type
(`std::time::SystemTime`): a signed number of seconds relative to the Unix
epoch plus a sub-second nanosecond part, kept normalized (`nanos < 10^9`) at
every construction site. -/
structure SysTime where
  secs : Int
  nanos : Nat
deriving DecidableEq, Repr

/-- Modelled from the spec: the inner operator record
(`warg_protocol::operator::OperatorRecord`): optional previous-record digest,
protocol version, timestamp and the ordered entry sequence. -/
structure OperatorRecord where
  prev : Option AnyHash
  version : Nat
  timestamp : SysTime
  entries : List OperatorEntry
deriving DecidableEq, Repr

/-- Wire tag of a permission value. -/
def permTag : Permission → Nat
  | Permission.commit => 0
  | Permission.other t => t + 1

/-- Permission carried by a wire tag. -/
def permOfTag : Nat → Permission
  | 0 => Permission.commit
  | t + 1 => Permission.other t

/-- Wire tag of a hash algorithm. -/
def algoTag : HashAlgorithm → Nat
  | HashAlgorithm.sha256 => 0

/-- Length-prefixed byte run. -/
def wireList (s : List Nat) : List Nat := s.length :: s

/-- Read a length-prefixed byte run off the front of the input. -/
def readList : List Nat → Option (List Nat × List Nat)
  | [] => none
  | n :: rest => if n ≤ rest.length then some (rest.take n, rest.drop n) else none

/-- Modelled from the spec: wire form of one entry.  Known variants carry a
fixed tag (0, 1, 2); tags from 3 upward are the open extension space. -/
def wireEntry : OperatorEntry → List Nat
  | OperatorEntry.init a k => 0 :: algoTag a :: wireList k.bytes
  | OperatorEntry.grantFlat k p => 1 :: (wireList k.bytes ++ [permTag p])
  | OperatorEntry.revokeFlat kid p => 2 :: (wireList kid ++ [permTag p])
  | OperatorEntry.unknown t => (t + 3) :: []

/-- Read one entry off the front of the input. -/
def readEntry : List Nat → Option (OperatorEntry × List Nat)
  | [] => none
  | 0 :: rest =>
    match rest with
    | [] => none
    | a :: rest2 =>
      if a = 0 then
        (readList rest2).map (fun p => (OperatorEntry.init HashAlgorithm.sha256 (PublicKey.mk p.1), p.2))
      else none
  | 1 :: rest =>
    (readList rest).bind (fun p =>
      match p.2 with
      | [] => none
      | t :: rest2 => some (OperatorEntry.grantFlat (PublicKey.mk p.1) (permOfTag t), rest2))
  | 2 :: rest =>
    (readList rest).bind (fun p =>
      match p.2 with
      | [] => none
      | t :: rest2 => some (OperatorEntry.revokeFlat p.1 (permOfTag t), rest2))
  | (t + 3) :: rest => some (OperatorEntry.unknown t, rest)

/-- Read a counted sequence of entries off the front of the input. -/
def readEntries : Nat → List Nat → Option (List OperatorEntry × List Nat)
  | 0, rest => some ([], rest)
  | n + 1, rest =>
    (readEntry rest).bind (fun p =>
      (readEntries n p.2).map (fun q => (p.1 :: q.1, q.2)))

/-- Wire form of the optional previous-record digest. -/
def wirePrev : Option AnyHash → List Nat
  | none => [0]
  | some h => 1 :: algoTag h.algo :: wireList h.bytes

/-- Read the optional previous-record digest off the front of the input. -/
def readPrev : List Nat → Option (Option AnyHash × List Nat)
  | [] => none
  | 0 :: rest => some (none, rest)
  | 1 :: rest =>
    match rest with
    | [] => none
    | a :: rest2 =>
      if a = 0 then
        (readList rest2).map (fun p => (some (AnyHash.mk HashAlgorithm.sha256 p.1), p.2))
      else none
  | _ => none

/-- Seconds on the wire: the two's-complement 64-bit value of the signed count. -/
def wireSecs (i : Int) : Nat := (i.emod (2 ^ 64)).toNat

/-- Signed seconds recovered from the wire value. -/
def secsOfWire (n : Nat) : Int :=
  if n < 2 ^ 63 then (n : Int) else (n : Int) - 2 ^ 64

/-- Modelled from the spec: the canonical wire form of an inner operator
record (`warg_crypto::Encode` for `OperatorRecord`): previous-digest part,
version, timestamp seconds and nanoseconds, then the counted entry sequence. -/
def OperatorRecord.encode (r : OperatorRecord) : List Nat :=
  wirePrev r.prev
    ++ r.version :: wireSecs r.timestamp.secs :: r.timestamp.nanos
    :: r.entries.length :: (r.entries.map wireEntry).flatten

/-- Modelled from the spec: decode the canonical wire form
(`warg_protocol::operator::OperatorRecord::decode`), rejecting truncated or
malformed input, including a non-normalized nanosecond field and trailing
bytes. -/
def OperatorRecord.decode (bs : List Nat) : Option OperatorRecord :=
  (readPrev bs).bind (fun p =>
    match p.2 with
    | v :: s :: n :: cnt :: rest =>
      if s < 2 ^ 64 ∧ n < 10 ^ 9 then
        (readEntries cnt rest).bind (fun q =>
          if q.2 = [] then
            some (OperatorRecord.mk p.1 v (SysTime.mk (secsOfWire s) n) q.1)
          else none)
      else none
    | _ => none)

/-- Modelled from the spec: the envelope as submitted to validation
(`warg_protocol::ProtoEnvelope<OperatorRecord>`): decoded contents, the
canonical bytes, the claimed signer identity, and the parsed signature. -/
structure ProtoEnvelope where
  contents : OperatorRecord
  content_bytes : List Nat
  key_id : KeyId
  signature : Signature
deriving DecidableEq, Repr

/-- Modelled from the spec: the rejection reasons of the inner validation
(`warg_protocol::operator::ValidationError`), exactly the variants the
component source imports and matches on. -/
inductive ValidationError where
  | firstEntryIsNotInit
  | initialRecordDoesNotInit
  | keyIDNotRecognized (key_id : KeyId)
  | initialEntryAfterBeginning
  | unauthorizedAction (key_id : KeyId) (needed_permission : Permission)
  | permissionNotFoundToRevoke (key_id : KeyId) (permission : Permission)
  | signatureError (msg : Str)
  | incorrectHashAlgorithm (found : HashAlgorithm) (expected : HashAlgorithm)
  | recordHashDoesNotMatch
  | previousHashOnFirstRecord
  | noPreviousHashAfterInit
  | protocolVersionNotAllowed (version : Nat)
  | timestampLowerThanPrevious
deriving DecidableEq, Repr

/-- Modelled from the spec: the chain head, the most recently accepted
record's digest. -/
structure Head where
  digest : AnyHash
deriving DecidableEq, Repr

/-- Modelled from the spec: process state for one log
(`warg_protocol::operator::LogState`): optional head, the hash algorithm
fixed at `Init`, the last accepted timestamp, the permission grants, and the
known public keys by identity. -/
structure LogState where
  head : Option Head
  algorithm : Option HashAlgorithm
  lastTimestamp : Option SysTime
  permissions : List (KeyId × List Permission)
  keys : List (KeyId × PublicKey)
deriving DecidableEq, Repr

/-- Empty state: no head, no algorithm, no permissions (`LogState::default`). -/
def LogState.default : LogState :=
  LogState.mk none none none [] []

/-- Association-list lookup by key identity. -/
def lookupKey {α : Type} : List (KeyId × α) → KeyId → Option α
  | [], _ => none
  | e :: rest, k => if e.1 = k then some e.2 else lookupKey rest k

/-- Whether an identity currently holds a permission. -/
def hasPermission (perms : List (KeyId × List Permission)) (k : KeyId) (p : Permission) : Bool :=
  match lookupKey perms k with
  | some ps => decide (p ∈ ps)
  | none => false

/-- Add a permission to an identity's set. -/
def addPerm : List (KeyId × List Permission) → KeyId → Permission → List (KeyId × List Permission)
  | [], k, p => [(k, [p])]
  | e :: rest, k, p =>
    if e.1 = k then (k, if p ∈ e.2 then e.2 else p :: e.2) :: rest
    else e :: addPerm rest k p

/-- Remove a permission from an identity's set, dropping the identity when its
set empties (the spec keeps only identities with at least one grant). -/
def removePerm : List (KeyId × List Permission) → KeyId → Permission → List (KeyId × List Permission)
  | [], _, _ => []
  | e :: rest, k, p =>
    if e.1 = k then
      (if e.2.filter (fun q => !(decide (q = p))) = [] then rest
       else (k, e.2.filter (fun q => !(decide (q = p)))) :: rest)
    else e :: removePerm rest k p

/-- Record a public key under its identity. -/
def addKey : List (KeyId × PublicKey) → KeyId → PublicKey → List (KeyId × PublicKey)
  | [], k, pk => [(k, pk)]
  | e :: rest, k, pk => if e.1 = k then (k, pk) :: rest else e :: addKey rest k pk

/-- Strict order on timestamps, as total nanosecond offsets from the epoch. -/
def timeLtB (a b : SysTime) : Bool :=
  decide (a.secs * 10 ^ 9 + (a.nanos : Int) < b.secs * 10 ^ 9 + (b.nanos : Int))

/-- Modelled from the spec: the fixed domain-separation label prepended before
hashing a record for signature purposes (`operator::SIGNING_PREFIX`). -/
def signingDomain : List Nat := [87, 65, 82, 71]

/-- Modelled from the spec: message text carried by a signature-verification
failure. -/
def sigFailMsg : Str := [115, 105, 103]

/-- Modelled from the spec, step 1 of validation: chain-position check of the
candidate record against the current head. -/
def checkChain (st : LogState) (r : OperatorRecord) : Except ValidationError Unit :=
  match st.head, r.prev with
  | none, none => Except.ok ()
  | none, some _ => Except.error ValidationError.previousHashOnFirstRecord
  | some _, none => Except.error ValidationError.noPreviousHashAfterInit
  | some hd, some p =>
    if p.algo ≠ hd.digest.algo then
      Except.error (ValidationError.incorrectHashAlgorithm p.algo hd.digest.algo)
    else if p ≠ hd.digest then Except.error ValidationError.recordHashDoesNotMatch
    else Except.ok ()

/-- Modelled from the spec, step 2 of validation: the first record's first
entry must be `Init`. -/
def checkInitPlacement (st : LogState) (r : OperatorRecord) : Except ValidationError Unit :=
  match st.head with
  | some _ => Except.ok ()
  | none =>
    match r.entries.head? with
    | none => Except.error ValidationError.initialRecordDoesNotInit
    | some (OperatorEntry.init _ _) => Except.ok ()
    | some _ => Except.error ValidationError.firstEntryIsNotInit

/-- Modelled from the spec, step 4 of validation: protocol version gate.  The
spec leaves the accepted set open; the engine accepts exactly version `0`. -/
def checkVersion (r : OperatorRecord) : Except ValidationError Unit :=
  if r.version = 0 then Except.ok ()
  else Except.error (ValidationError.protocolVersionNotAllowed r.version)

/-- Modelled from the spec, step 5 of validation: timestamp monotonicity
against the last accepted timestamp, with no lower bound on the first record. -/
def checkTimestamp (st : LogState) (r : OperatorRecord) : Except ValidationError Unit :=
  match st.lastTimestamp with
  | none => Except.ok ()
  | some t =>
    if timeLtB r.timestamp t then Except.error ValidationError.timestampLowerThanPrevious
    else Except.ok ()

/-- Modelled from the spec, step 6 of validation: signer recognition.  The
signer must be a known identity, except on the founding record, where the key
is taken from the `Init` entry itself. -/
def signerKey (st : LogState) (env : ProtoEnvelope) : Except ValidationError PublicKey :=
  match lookupKey st.keys env.key_id with
  | some k => Except.ok k
  | none =>
    match st.head with
    | some _ => Except.error (ValidationError.keyIDNotRecognized env.key_id)
    | none =>
      match env.contents.entries.head? with
      | some (OperatorEntry.init _ k) =>
        if keyIdOf k = env.key_id then Except.ok k
        else Except.error (ValidationError.keyIDNotRecognized env.key_id)
      | _ => Except.error (ValidationError.keyIDNotRecognized env.key_id)

/-- Modelled from the spec, step 7 of validation: the signature must verify
over the domain-separated canonical bytes under the signer's key. -/
def checkSignature (k : PublicKey) (env : ProtoEnvelope) : Except ValidationError Unit :=
  if verify k (signingDomain ++ env.content_bytes) env.signature then Except.ok ()
  else Except.error (ValidationError.signatureError sigFailMsg)

/-- Modelled from the spec, step 8 of validation: per-entry authorization and
effects, applied in entry order over the pending permission and key maps.
`Init` is legal only as the first entry of the first record and implicitly
grants `Commit` to the founding key; grants and revocations require the signer
to hold `Commit`; an entry carrying a permission outside the closed set is
rejected through the carrier errors, never silently applied. -/
def applyEntries (signer : KeyId) (first : Bool) :
    Nat → Option HashAlgorithm → List (KeyId × List Permission) → List (KeyId × PublicKey) →
    List OperatorEntry →
    Except ValidationError (Option HashAlgorithm × List (KeyId × List Permission) × List (KeyId × PublicKey))
  | _, algo, perms, keys, [] => Except.ok (algo, perms, keys)
  | idx, algo, perms, keys, e :: rest =>
    match e with
    | OperatorEntry.init a k =>
      if first ∧ idx = 0 then
        applyEntries signer first (idx + 1) (some a)
          (addPerm perms (keyIdOf k) Permission.commit)
          (addKey keys (keyIdOf k) k) rest
      else Except.error ValidationError.initialEntryAfterBeginning
    | OperatorEntry.grantFlat k p =>
      if hasPermission perms signer Permission.commit then
        match p with
        | Permission.commit =>
          applyEntries signer first (idx + 1) algo
            (addPerm perms (keyIdOf k) p) (addKey keys (keyIdOf k) k) rest
        | Permission.other _ => Except.error (ValidationError.unauthorizedAction signer p)
      else Except.error (ValidationError.unauthorizedAction signer Permission.commit)
    | OperatorEntry.revokeFlat kid p =>
      if hasPermission perms signer Permission.commit then
        match p with
        | Permission.commit =>
          if hasPermission perms kid p then
            applyEntries signer first (idx + 1) algo (removePerm perms kid p) keys rest
          else Except.error (ValidationError.permissionNotFoundToRevoke kid p)
        | Permission.other _ => Except.error (ValidationError.permissionNotFoundToRevoke kid p)
      else Except.error (ValidationError.unauthorizedAction signer Permission.commit)
    | OperatorEntry.unknown _ =>
      if hasPermission perms signer Permission.commit then
        applyEntries signer first (idx + 1) algo perms keys rest
      else Except.error (ValidationError.unauthorizedAction signer Permission.commit)

/-- Modelled from the spec: run every validation check in the spec's order
(steps 1 through 8) and compute the full effect set without touching the
state, following the spec's all-or-nothing design note. -/
def runChecks (st : LogState) (env : ProtoEnvelope) :
    Except ValidationError (HashAlgorithm × List (KeyId × List Permission) × List (KeyId × PublicKey)) := do
  let r := env.contents
  checkChain st r
  checkInitPlacement st r
  checkVersion r
  checkTimestamp st r
  let k ← signerKey st env
  checkSignature k env
  let res ← applyEntries env.key_id st.head.isNone 0 st.algorithm st.permissions st.keys r.entries
  match res.1 with
  | some a => Except.ok (a, res.2.1, res.2.2)
  | none => Except.ok (HashAlgorithm.sha256, res.2.1, res.2.2)

/-- Modelled from the spec: `LogState::validate`.  All checks run first; only
when every one passes is the committed state built, with the new head digest,
the established algorithm, the record's timestamp and the updated maps
(step 9).  A rejection returns the error and no new state. -/
def validate (st : LogState) (env : ProtoEnvelope) : Except ValidationError LogState :=
  match runChecks st env with
  | Except.error e => Except.error e
  | Except.ok res =>
    Except.ok (LogState.mk
      (some (Head.mk (AnyHash.mk res.1 (sha256Hash env.content_bytes))))
      (some res.1)
      (some env.contents.timestamp)
      res.2.1
      res.2.2)

end Proto

namespace Component

/-- Timestamp of the component interface: seconds as a signed 64-bit count
and nanoseconds as a signed 32-bit count (`types::Timestamp`). -/
structure Timestamp where
  seconds : Int
  nanos : Int
deriving DecidableEq, Repr

/-- Permission enumeration of the component interface (`OperatorPermission`);
only `Commit` is defined. -/
inductive OperatorPermission where
  | commit
deriving DecidableEq, Repr

/-- Init entry of the component interface (`OperatorInit`). -/
structure OperatorInit where
  hash_algorithm : Str
  key : Str
deriving DecidableEq, Repr

/-- Grant entry of the component interface (`OperatorGrantFlat`). -/
structure OperatorGrantFlat where
  key : Str
  permission : OperatorPermission
deriving DecidableEq, Repr

/-- Revoke entry of the component interface (`OperatorRevokeFlat`). -/
structure OperatorRevokeFlat where
  key : Str
  permission : OperatorPermission
deriving DecidableEq, Repr

/-- Entry of the component interface (`OperatorEntry`), a closed tagged union
of the three operations. -/
inductive OperatorEntry where
  | operatorInit (value : OperatorInit)
  | operatorGrantFlat (value : OperatorGrantFlat)
  | operatorRevokeFlat (value : OperatorRevokeFlat)
deriving DecidableEq, Repr

/-- Record of the component interface (`OperatorRecord`). -/
structure OperatorRecord where
  prev : Option Str
  version : Nat
  timestamp : Timestamp
  entries : List OperatorEntry
deriving DecidableEq, Repr

/-- Result of a successful encode: the canonical bytes and the derived
record identifier (`EncodedOperatorRecord`). -/
structure EncodedOperatorRecord where
  content_bytes : List Nat
  record_id : Str
deriving DecidableEq, Repr

/-- Record identifiers cross the component boundary in textual form. -/
abbrev RecordId := Str

/-- Transport envelope of the component interface (`Envelope`): canonical
bytes, signer identity and signature, all still in transport form. -/
structure Envelope where
  content_bytes : List Nat
  key_id : Str
  signature : Str
deriving DecidableEq, Repr

/-- Error payload naming the offending identity and the permission involved
(`UnauthorizedPermissionError`). -/
structure UnauthorizedPermissionError where
  key_id : Str
  permission : OperatorPermission
deriving DecidableEq, Repr

/-- Error payload naming the found and expected hash algorithms
(`UnexpectedHashAlgorithm`). -/
structure UnexpectedHashAlgorithm where
  found : Str
  expected : Str
deriving DecidableEq, Repr

/-- Encode error taxonomy of the component interface (`OperatorEncodeErrno`). -/
inductive OperatorEncodeErrno where
  | prevRecordIdInvalidFormat
  | unsupportedHashAlgorithm
  | publicKeyParseFailure
  | unknownOperatorPermission
  | unknownOperatorEntry
deriving DecidableEq, Repr

/-- Decode error taxonomy of the component interface (`OperatorDecodeErrno`). -/
inductive OperatorDecodeErrno where
  | failedToDecode
  | unknownOperatorEntry
  | unknownOperatorPermission
deriving DecidableEq, Repr

/-- Validation error taxonomy of the component interface
(`OperatorValidationError`), exactly the variants the source constructs. -/
inductive OperatorValidationError where
  | signatureParseFailure (msg : Str)
  | failedToDecodeOperatorRecord
  | unexpectedValidationError
  | firstEntryIsNotInit
  | initialRecordDoesNotInit
  | keyIdNotRecognized (key_id : Str)
  | initialEntryAfterBeginning
  | unauthorizedAction (value : UnauthorizedPermissionError)
  | permissionNotFoundToRevoke (value : UnauthorizedPermissionError)
  | unknownOperatorPermission
  | signatureInvalid
  | incorrectHashAlgorithm (value : UnexpectedHashAlgorithm)
  | recordHashDoesNotMatch
  | previousHashOnFirstRecord
  | noPreviousHashAfterInit
  | protocolVersionNotAllowed (version : Nat)
  | timestampLowerThanPrevious
deriving DecidableEq, Repr

/-- Wrapping cast to an unsigned 64-bit value (`as u64` on an `i64`). -/
def toU64 (i : Int) : Nat := (i.emod (2 ^ 64)).toNat

/-- Wrapping cast to an unsigned 32-bit value (`as u32` on an `i32`). -/
def toU32 (i : Int) : Nat := (i.emod (2 ^ 32)).toNat

/-- Wrapping cast of an unsigned count to a signed 64-bit value (`as i64`). -/
def i64ofNat (n : Nat) : Int :=
  if n % 2 ^ 64 < 2 ^ 63 then ((n % 2 ^ 64 : Nat) : Int)
  else ((n % 2 ^ 64 : Nat) : Int) - 2 ^ 64

/-- Wrapping cast of an unsigned count to a signed 32-bit value (`as i32`). -/
def i32ofNat (n : Nat) : Int :=
  if n % 2 ^ 32 < 2 ^ 31 then ((n % 2 ^ 32 : Nat) : Int)
  else ((n % 2 ^ 32 : Nat) : Int) - 2 ^ 32

/-- Timestamp conversion performed by `encode` (source lines 217-218):
`UNIX_EPOCH + Duration::new(seconds as u64, nanos as u32)`, the casts
wrapping.  `Duration::new` carries whole seconds out of the nanosecond part
and panics when the carried seconds overflow the unsigned 64-bit counter;
that panic aborts the whole call and is modelled as `none`. -/
def encodeTimestamp (ts : Timestamp) : Option Proto.SysTime :=
  if 2 ^ 64 ≤ toU64 ts.seconds + toU32 ts.nanos / 10 ^ 9 then none
  else some (Proto.SysTime.mk
    (Int.ofNat (toU64 ts.seconds + toU32 ts.nanos / 10 ^ 9))
    (toU32 ts.nanos % 10 ^ 9))

/-- Interface permission carried into the inner permission type. -/
def permOfWit : OperatorPermission → Proto.Permission
  | OperatorPermission.commit => Proto.Permission.commit

/-- Entry conversion performed by the `encode` loop (source lines 165-207):
`Init` parses its algorithm then its key, `GrantFlat` parses its key, and
`RevokeFlat` takes its key verbatim as a key identity. -/
def convEntry : OperatorEntry → Except OperatorEncodeErrno Proto.OperatorEntry
  | OperatorEntry.operatorInit i =>
    match Crypto.HashAlgorithm.fromStr i.hash_algorithm with
    | none => Except.error OperatorEncodeErrno.unsupportedHashAlgorithm
    | some a =>
      match Crypto.PublicKey.fromStr i.key with
      | none => Except.error OperatorEncodeErrno.publicKeyParseFailure
      | some k => Except.ok (Proto.OperatorEntry.init a k)
  | OperatorEntry.operatorGrantFlat g =>
    match Crypto.PublicKey.fromStr g.key with
    | none => Except.error OperatorEncodeErrno.publicKeyParseFailure
    | some k => Except.ok (Proto.OperatorEntry.grantFlat k (permOfWit g.permission))
  | OperatorEntry.operatorRevokeFlat v =>
    Except.ok (Proto.OperatorEntry.revokeFlat v.key (permOfWit v.permission))

/-- Conversion of the whole entry sequence, stopping at the first failure as
the source loop does. -/
def convEntries : List OperatorEntry → Except OperatorEncodeErrno (List Proto.OperatorEntry)
  | [] => Except.ok []
  | e :: rest =>
    match convEntry e with
    | Except.error err => Except.error err
    | Except.ok w =>
      match convEntries rest with
      | Except.error err => Except.error err
      | Except.ok ws => Except.ok (w :: ws)

/-- Previous-record reference parsing performed first by `encode` (source
lines 155-161). -/
def convPrev : Option Str → Except OperatorEncodeErrno (Option Crypto.AnyHash)
  | none => Except.ok none
  | some s =>
    match Crypto.AnyHash.fromStr s with
    | none => Except.error OperatorEncodeErrno.prevRecordIdInvalidFormat
    | some h => Except.ok (some h)

/-- Component `encode` (source lines 152-229): parse the previous reference,
convert every entry, build the inner record with the converted timestamp,
serialize it canonically and derive the record identifier from the bytes.
The result is `none` when the timestamp conversion panics — the process
aborts and no value, `Ok` or `Err`, is ever returned; parse failures of the
previous reference and of the entries are reached before the timestamp
conversion, exactly as in the source. -/
def encode (rec : OperatorRecord) : Option (Except OperatorEncodeErrno EncodedOperatorRecord) :=
  match convPrev rec.prev with
  | Except.error e => some (Except.error e)
  | Except.ok prev =>
    match convEntries rec.entries with
    | Except.error e => some (Except.error e)
    | Except.ok entries =>
      match encodeTimestamp rec.timestamp with
      | none => none
      | some ts =>
        let cb := Proto.OperatorRecord.encode
          (Proto.OperatorRecord.mk prev rec.version ts entries)
        some (Except.ok (EncodedOperatorRecord.mk cb
          (Crypto.AnyHash.toStr (Crypto.AnyHash.mk Crypto.HashAlgorithm.sha256 (Crypto.sha256Hash cb)))))

/-- Entry conversion performed by the `decode` loop (source lines 243-272):
known variants with the `Commit` permission convert back to interface form;
a permission outside the closed set is rejected as
`UnknownOperatorPermission` and an entry variant outside the closed set as
`UnknownOperatorEntry`. -/
def convBackEntry : Proto.OperatorEntry → Except OperatorDecodeErrno OperatorEntry
  | Proto.OperatorEntry.init a k =>
    Except.ok (OperatorEntry.operatorInit (OperatorInit.mk a.toStr k.toStr))
  | Proto.OperatorEntry.grantFlat k p =>
    match p with
    | Proto.Permission.commit =>
      Except.ok (OperatorEntry.operatorGrantFlat (OperatorGrantFlat.mk k.toStr OperatorPermission.commit))
    | Proto.Permission.other _ => Except.error OperatorDecodeErrno.unknownOperatorPermission
  | Proto.OperatorEntry.revokeFlat kid p =>
    match p with
    | Proto.Permission.commit =>
      Except.ok (OperatorEntry.operatorRevokeFlat (OperatorRevokeFlat.mk kid OperatorPermission.commit))
    | Proto.Permission.other _ => Except.error OperatorDecodeErrno.unknownOperatorPermission
  | Proto.OperatorEntry.unknown _ => Except.error OperatorDecodeErrno.unknownOperatorEntry

/-- Conversion of the whole decoded entry sequence, stopping at the first
failure as the source loop does. -/
def convBackEntries : List Proto.OperatorEntry → Except OperatorDecodeErrno (List OperatorEntry)
  | [] => Except.ok []
  | e :: rest =>
    match convBackEntry e with
    | Except.error err => Except.error err
    | Except.ok w =>
      match convBackEntries rest with
      | Except.error err => Except.error err
      | Except.ok ws => Except.ok (w :: ws)

/-- Offset of a timestamp from the Unix epoch
(`SystemTime::duration_since(UNIX_EPOCH)`), failing on a pre-epoch instant. -/
def durationSinceEpoch (t : Proto.SysTime) : Option (Nat × Nat) :=
  if t.secs < 0 then none else some (t.secs.toNat, t.nanos)

/-- Component `decode` (source lines 230-283): decode the canonical bytes,
reject a timestamp not representable relative to the epoch, convert the
entries back and rebuild the interface record. -/
def decode (bs : List Nat) : Except OperatorDecodeErrno OperatorRecord :=
  match Proto.OperatorRecord.decode bs with
  | none => Except.error OperatorDecodeErrno.failedToDecode
  | some r =>
    match durationSinceEpoch r.timestamp with
    | none => Except.error OperatorDecodeErrno.failedToDecode
    | some d =>
      match convBackEntries r.entries with
      | Except.error e => Except.error e
      | Except.ok entries =>
        Except.ok (OperatorRecord.mk
          (r.prev.map Crypto.AnyHash.toStr)
          r.version
          (Timestamp.mk (i64ofNat d.1) (i32ofNat d.2))
          entries)

/-- Modelled from the spec: message text of a malformed-signature parse
failure (`err.to_string()` at source line 76). -/
def sigParseMsg : Str := [101, 114, 114]

/-- Error mapping performed by `append` (source lines 95-149), translating
each inner rejection to the component taxonomy; a carrier error holding a
permission outside the closed set becomes `UnknownOperatorPermission`. -/
def mapValidationError : Proto.ValidationError → OperatorValidationError
  | Proto.ValidationError.firstEntryIsNotInit => OperatorValidationError.firstEntryIsNotInit
  | Proto.ValidationError.initialRecordDoesNotInit => OperatorValidationError.initialRecordDoesNotInit
  | Proto.ValidationError.keyIDNotRecognized kid => OperatorValidationError.keyIdNotRecognized kid
  | Proto.ValidationError.initialEntryAfterBeginning => OperatorValidationError.initialEntryAfterBeginning
  | Proto.ValidationError.unauthorizedAction kid needed =>
    match needed with
    | Proto.Permission.commit =>
      OperatorValidationError.unauthorizedAction
        (UnauthorizedPermissionError.mk kid OperatorPermission.commit)
    | Proto.Permission.other _ => OperatorValidationError.unknownOperatorPermission
  | Proto.ValidationError.permissionNotFoundToRevoke kid p =>
    match p with
    | Proto.Permission.commit =>
      OperatorValidationError.permissionNotFoundToRevoke
        (UnauthorizedPermissionError.mk kid OperatorPermission.commit)
    | Proto.Permission.other _ => OperatorValidationError.unknownOperatorPermission
  | Proto.ValidationError.signatureError _ => OperatorValidationError.signatureInvalid
  | Proto.ValidationError.incorrectHashAlgorithm f e =>
    OperatorValidationError.incorrectHashAlgorithm (UnexpectedHashAlgorithm.mk f.toStr e.toStr)
  | Proto.ValidationError.recordHashDoesNotMatch => OperatorValidationError.recordHashDoesNotMatch
  | Proto.ValidationError.previousHashOnFirstRecord => OperatorValidationError.previousHashOnFirstRecord
  | Proto.ValidationError.noPreviousHashAfterInit => OperatorValidationError.noPreviousHashAfterInit
  | Proto.ValidationError.protocolVersionNotAllowed v => OperatorValidationError.protocolVersionNotAllowed v
  | Proto.ValidationError.timestampLowerThanPrevious => OperatorValidationError.timestampLowerThanPrevious

/-- Component `append` (source lines 73-150): parse the signature, decode the
contents, submit the assembled envelope to validation, and on success return
the new head's identifier.  The state is threaded explicitly: the Rust static
cell read through `get_state` is the second component of argument and result. -/
def append (st : Proto.LogState) (env : Envelope) :
    Except OperatorValidationError RecordId × Proto.LogState :=
  match Crypto.Signature.fromStr env.signature with
  | none => (Except.error (OperatorValidationError.signatureParseFailure sigParseMsg), st)
  | some signature =>
    match Proto.OperatorRecord.decode env.content_bytes with
    | none => (Except.error OperatorValidationError.failedToDecodeOperatorRecord, st)
    | some contents =>
      match Proto.validate st (Proto.ProtoEnvelope.mk contents env.content_bytes env.key_id signature) with
      | Except.error e => (Except.error (mapValidationError e), st)
      | Except.ok st2 =>
        match st2.head with
        | some hd => (Except.ok hd.digest.toStr, st2)
        | none => (Except.error OperatorValidationError.unexpectedValidationError, st2)

/-- Modelled from the spec: the fixed operator-log label from which the log
identifier is derived (`LogId::operator_log::<Sha256>`). -/
def operatorLogLabel : Str := [87, 65, 82, 71, 45, 79, 80]

/-- The operator-log identifier: digest of the fixed label under the primitive
hash algorithm, in textual form. -/
def logIdValue : Str :=
  Crypto.AnyHash.toStr (Crypto.AnyHash.mk Crypto.HashAlgorithm.sha256 (Crypto.sha256Hash operatorLogLabel))

/-- Source `get_log_id` (lines 29-42): the lazily initialized process cache.
The static cell is threaded explicitly: a filled cell is returned as is, an
empty cell is filled with the computed identifier. -/
def get_log_id : Option Str → Str × Option Str
  | some v => (v, some v)
  | none => (logIdValue, some logIdValue)

/-- Component `log_id` (lines 65-67): read the cached identifier. -/
def log_id (cache : Option Str) : Str × Option Str := get_log_id cache

end Component

/-- Decidable equality on `Except` results, so concrete evaluations close by
`decide`. -/
instance {ε : Type} {α : Type} [DecidableEq ε] [DecidableEq α] : DecidableEq (Except ε α) :=
  fun x y =>
    match x, y with
    | Except.ok a, Except.ok b =>
      if h : a = b then Decidable.isTrue (by rw [h])
      else Decidable.isFalse (fun hh => h (Except.ok.inj hh))
    | Except.error a, Except.error b =>
      if h : a = b then Decidable.isTrue (by rw [h])
      else Decidable.isFalse (fun hh => h (Except.error.inj hh))
    | Except.ok _, Except.error _ => Decidable.isFalse (fun hh => Except.noConfusion hh)
    | Except.error _, Except.ok _ => Decidable.isFalse (fun hh => Except.noConfusion hh)

namespace Component

/-- Decode errno produced by converting one inner entry back to interface
form, `none` when the entry converts cleanly. -/
def entryConvErrno : Proto.OperatorEntry → Option OperatorDecodeErrno
  | Proto.OperatorEntry.init _ _ => none
  | Proto.OperatorEntry.grantFlat _ p =>
    match p with
    | Proto.Permission.commit => none
    | Proto.Permission.other _ => some OperatorDecodeErrno.unknownOperatorPermission
  | Proto.OperatorEntry.revokeFlat _ p =>
    match p with
    | Proto.Permission.commit => none
    | Proto.Permission.other _ => some OperatorDecodeErrno.unknownOperatorPermission
  | Proto.OperatorEntry.unknown _ => some OperatorDecodeErrno.unknownOperatorEntry

/-- Whether an interface entry's fields parse, so that the `encode` loop
converts it without failing. -/
def entryEncodesB : OperatorEntry → Bool
  | OperatorEntry.operatorInit i =>
    (Crypto.HashAlgorithm.fromStr i.hash_algorithm).isSome && (Crypto.PublicKey.fromStr i.key).isSome
  | OperatorEntry.operatorGrantFlat g => (Crypto.PublicKey.fromStr g.key).isSome
  | OperatorEntry.operatorRevokeFlat _ => true

/-- Whether an entry is one the claim says must make `encode` fail with
`PublicKeyParseFailure`: its key field does not parse while every field the
source inspects earlier in the same entry does. -/
def entryBadKeyB : OperatorEntry → Bool
  | OperatorEntry.operatorInit i =>
    (Crypto.HashAlgorithm.fromStr i.hash_algorithm).isSome && (Crypto.PublicKey.fromStr i.key).isNone
  | OperatorEntry.operatorGrantFlat g => (Crypto.PublicKey.fromStr g.key).isNone
  | OperatorEntry.operatorRevokeFlat _ => false

/-- Whether the previous-record reference parses. -/
def prevParsesB : Option Str → Bool
  | none => true
  | some s => (Crypto.AnyHash.fromStr s).isSome

/-- Timestamp representable relative to the epoch, with its fields inside
their machine-integer ranges: the reading of well-formedness the round-trip
claim states. -/
def tsRepresentable (ts : Timestamp) : Prop :=
  -2 ^ 63 ≤ ts.seconds ∧ ts.seconds < 2 ^ 63 ∧ -2 ^ 31 ≤ ts.nanos ∧ ts.nanos < 2 ^ 31 ∧
    0 ≤ ts.seconds * 10 ^ 9 + ts.nanos

instance (ts : Timestamp) : Decidable (tsRepresentable ts) := by
  unfold tsRepresentable; infer_instance

/-- Well-formed record for the amended round-trip statement: the prev, hash
algorithm and key fields parse, and the timestamp is a normalized
representable instant (`0 ≤ seconds < 2^63` within `i64`, `0 ≤ nanos < 10^9`). -/
def recWellFormed (r : OperatorRecord) : Prop :=
  prevParsesB r.prev = true ∧ (∀ e ∈ r.entries, entryEncodesB e = true) ∧
    0 ≤ r.timestamp.seconds ∧ r.timestamp.seconds < 2 ^ 63 ∧
    0 ≤ r.timestamp.nanos ∧ r.timestamp.nanos < 10 ^ 9

instance (r : OperatorRecord) : Decidable (recWellFormed r) := by
  unfold recWellFormed; infer_instance

end Component

namespace Inputs

/-- Founding key used by the concrete scenarios. -/
def k0 : Crypto.PublicKey := Crypto.PublicKey.mk [7]

/-- A well-formed interface record exercising every entry kind, a previous
reference, and a normalized timestamp. -/
def rRound : Component.OperatorRecord :=
  Component.OperatorRecord.mk
    (some (Crypto.AnyHash.toStr (Crypto.AnyHash.mk Crypto.HashAlgorithm.sha256 [1, 2])))
    0 (Component.Timestamp.mk 5 6)
    [Component.OperatorEntry.operatorInit
       (Component.OperatorInit.mk Crypto.sha256Label (Crypto.PublicKey.toStr k0)),
     Component.OperatorEntry.operatorGrantFlat
       (Component.OperatorGrantFlat.mk (Crypto.PublicKey.toStr k0) Component.OperatorPermission.commit),
     Component.OperatorEntry.operatorRevokeFlat
       (Component.OperatorRevokeFlat.mk [9, 9] Component.OperatorPermission.commit)]

/-- Record whose timestamp is representable relative to the epoch but not
normalized: exactly one second after the epoch written as `10^9` nanoseconds. -/
def rC1cex : Component.OperatorRecord :=
  Component.OperatorRecord.mk none 0 (Component.Timestamp.mk 0 1000000000) []

/-- A string that is not a well-formed public key encoding. -/
def badKeyStr : Str := [9]

/-- Record whose only entry is a `RevokeFlat` carrying a malformed key field. -/
def rC3cex : Component.OperatorRecord :=
  Component.OperatorRecord.mk none 0 (Component.Timestamp.mk 0 0)
    [Component.OperatorEntry.operatorRevokeFlat
       (Component.OperatorRevokeFlat.mk badKeyStr Component.OperatorPermission.commit)]

/-- Record whose only entry is a `GrantFlat` carrying a malformed key field. -/
def rC3grant : Component.OperatorRecord :=
  Component.OperatorRecord.mk none 0 (Component.Timestamp.mk 0 0)
    [Component.OperatorEntry.operatorGrantFlat
       (Component.OperatorGrantFlat.mk badKeyStr Component.OperatorPermission.commit)]

/-- Founding inner record: no previous reference, version 0, an `Init` entry. -/
def rInit : Proto.OperatorRecord :=
  Proto.OperatorRecord.mk none 0 (Proto.SysTime.mk 5 0)
    [Proto.OperatorEntry.init Crypto.HashAlgorithm.sha256 k0]

/-- Canonical bytes of the founding record. -/
def cbInit : List Nat := Proto.OperatorRecord.encode rInit

/-- A valid founding envelope: canonical bytes, the founder's identity, and a
signature that verifies over the domain-separated bytes. -/
def envInit : Component.Envelope :=
  Component.Envelope.mk cbInit (Crypto.keyIdOf k0)
    (Crypto.Signature.toStr
      (Crypto.Signature.mk (Crypto.sha256Hash (k0.bytes ++ (Proto.signingDomain ++ cbInit)))))

/-- Envelope whose signature string does not parse. -/
def envSigBad : Component.Envelope := Component.Envelope.mk cbInit (Crypto.keyIdOf k0) []

/-- Envelope whose signature parses but whose content bytes do not decode. -/
def envNoDecode : Component.Envelope :=
  Component.Envelope.mk [] (Crypto.keyIdOf k0)
    (Crypto.Signature.toStr (Crypto.Signature.mk [1]))

/-- Inner record carrying an entry variant outside the closed set. -/
def rUnknownEntry : Proto.OperatorRecord :=
  Proto.OperatorRecord.mk none 0 (Proto.SysTime.mk 0 0) [Proto.OperatorEntry.unknown 0]

/-- Inner record carrying a permission value outside the closed set. -/
def rUnknownPerm : Proto.OperatorRecord :=
  Proto.OperatorRecord.mk none 0 (Proto.SysTime.mk 0 0)
    [Proto.OperatorEntry.grantFlat (Crypto.PublicKey.mk [1]) (Proto.Permission.other 0)]

/-- Inner record whose timestamp precedes the epoch. -/
def rPreEpoch : Proto.OperatorRecord :=
  Proto.OperatorRecord.mk none 0 (Proto.SysTime.mk (-5) 0) []

/-- The concrete result of encoding `rRound`. -/
def encRound : Component.EncodedOperatorRecord :=
  (((Component.encode rRound).getD
      (Except.error Component.OperatorEncodeErrno.prevRecordIdInvalidFormat)).toOption).getD
    (Component.EncodedOperatorRecord.mk [] [])

/-- The record identifier of the founding record. -/
def ridInit : Str :=
  Crypto.AnyHash.toStr (Crypto.AnyHash.mk Crypto.HashAlgorithm.sha256 (Crypto.sha256Hash cbInit))

/-- Record whose timestamp fields are both `-1`: the wrapped seconds are the
largest unsigned 64-bit value and the nanosecond carry overflows, so the
duration construction panics. -/
def rC10abort : Component.OperatorRecord :=
  Component.OperatorRecord.mk none 0 (Component.Timestamp.mk (-1) (-1)) []

/-- The same record as `rC10abort` except for a zero timestamp. -/
def rC10ok : Component.OperatorRecord :=
  Component.OperatorRecord.mk none 0 (Component.Timestamp.mk 0 0) []

end Inputs

namespace Proto

open Crypto

/-- Arithmetic of the two's-complement wire form: inside the 64-bit signed
range the euclidean remainder modulo `2^64` is the value itself or the value
shifted by `2^64`, according to sign. -/
theorem emod_u64_cases (i : Int) (h1 : -2 ^ 63 ≤ i) (h2 : i < 2 ^ 63) :
    (0 ≤ i ∧ i.emod (2 ^ 64) = i) ∨ (i < 0 ∧ i.emod (2 ^ 64) = i + 2 ^ 64) := by
  rcases le_or_lt 0 i with h | h
  · exact Or.inl ⟨h, Int.emod_eq_of_lt h (by norm_num; omega)⟩
  · refine Or.inr ⟨h, ?_⟩
    have h6 : (i + 2 ^ 64).emod (2 ^ 64) = i.emod (2 ^ 64) := by
      have h0 := Int.add_mul_emod_self_left i (2 ^ 64) 1
      rw [mul_one] at h0
      exact h0
    have h7 : (i + 2 ^ 64).emod (2 ^ 64) = i + 2 ^ 64 :=
      Int.emod_eq_of_lt (by omega) (by omega)
    rw [← h6, h7]

/-- Seconds in the 64-bit signed range survive the wire representation. -/
theorem secs_roundtrip (i : Int) (h1 : -2 ^ 63 ≤ i) (h2 : i < 2 ^ 63) :
    secsOfWire (wireSecs i) = i ∧ wireSecs i < 2 ^ 64 := by
  unfold secsOfWire wireSecs
  have h5 := emod_u64_cases i h1 h2
  constructor
  · rcases h5 with ⟨h, he⟩ | ⟨h, he⟩ <;> rw [he] <;> split <;> omega
  · rcases h5 with ⟨h, he⟩ | ⟨h, he⟩ <;> rw [he] <;> omega

/-- Reading a length-prefixed run returns the run and the trailing bytes. -/
theorem readList_wireList (s rest : List Nat) :
    readList (wireList s ++ rest) = some (s, rest) := by
  have hle : s.length ≤ (s ++ rest).length := by simp
  show readList (s.length :: (s ++ rest)) = some (s, rest)
  simp only [readList, if_pos hle, List.take_left, List.drop_left]

/-- Permission tags decode back to the permission that produced them. -/
theorem permOfTag_permTag (p : Permission) : permOfTag (permTag p) = p := by
  cases p <;> rfl

/-- Reading an encoded entry returns the entry and the trailing bytes. -/
theorem readEntry_wireEntry (e : OperatorEntry) (rest : List Nat) :
    readEntry (wireEntry e ++ rest) = some (e, rest) := by
  cases e with
  | init a k =>
    cases a
    show readEntry (0 :: 0 :: (wireList k.bytes ++ rest)) = _
    simp [readEntry, readList_wireList]
  | grantFlat k p =>
    show readEntry (1 :: ((wireList k.bytes ++ [permTag p]) ++ rest)) = _
    rw [List.append_assoc]
    simp [readEntry, readList_wireList, permOfTag_permTag]
  | revokeFlat kid p =>
    show readEntry (2 :: ((wireList kid ++ [permTag p]) ++ rest)) = _
    rw [List.append_assoc]
    simp [readEntry, readList_wireList, permOfTag_permTag]
  | unknown t =>
    show readEntry ((t + 3) :: ([] ++ rest)) = _
    simp [readEntry]

/-- Reading a counted encoded entry sequence returns the entries and the
trailing bytes. -/
theorem readEntries_wire (es : List OperatorEntry) (rest : List Nat) :
    readEntries es.length ((es.map wireEntry).flatten ++ rest) = some (es, rest) := by
  induction es generalizing rest with
  | nil => simp [readEntries]
  | cons e es ih =>
    simp only [List.map_cons, List.flatten_cons, List.length_cons, List.append_assoc]
    unfold readEntries
    rw [readEntry_wireEntry]
    simp [ih]

/-- Reading the encoded previous-digest part returns it and the trailing
bytes. -/
theorem readPrev_wirePrev (p : Option AnyHash) (rest : List Nat) :
    readPrev (wirePrev p ++ rest) = some (p, rest) := by
  cases p with
  | none => rfl
  | some h =>
    cases h with
    | mk algo bytes =>
      cases algo
      show readPrev (1 :: 0 :: (wireList bytes ++ rest)) = _
      simp [readPrev, readList_wireList]

/-- Round-trip of the inner wire codec: decoding the canonical bytes of a
record with in-range seconds and normalized nanoseconds returns the record. -/
theorem decode_encode (r : OperatorRecord)
    (h1 : -2 ^ 63 ≤ r.timestamp.secs) (h2 : r.timestamp.secs < 2 ^ 63)
    (h3 : r.timestamp.nanos < 10 ^ 9) :
    OperatorRecord.decode (OperatorRecord.encode r) = some r := by
  obtain ⟨hs, hlt⟩ := secs_roundtrip r.timestamp.secs h1 h2
  unfold OperatorRecord.encode OperatorRecord.decode
  rw [readPrev_wirePrev]
  simp only [Option.some_bind]
  rw [if_pos ⟨hlt, h3⟩]
  have h4 := readEntries_wire r.entries []
  rw [List.append_nil] at h4
  rw [h4]
  simp [hs]

end Proto

namespace Crypto

/-- A successful tag strip recovers the whole string by putting the tag back. -/
theorem stripTag_eq (tag s r : Str) (h : stripTag tag s = some r) : tag ++ r = s := by
  unfold stripTag at h
  split at h
  · rename_i hc
    injection h with h
    have h2 := List.take_append_drop tag.length s
    rw [hc] at h2
    rw [← h]
    exact h2
  · exact Option.noConfusion h

/-- The key parser is canonical: printing a parsed key gives the input back. -/
theorem publicKey_toStr_fromStr (s : Str) (k : PublicKey)
    (h : PublicKey.fromStr s = some k) : PublicKey.toStr k = s := by
  unfold PublicKey.fromStr at h
  cases hs : stripTag keyTag s with
  | none => rw [hs] at h; exact Option.noConfusion h
  | some r =>
    rw [hs] at h
    injection h with h
    rw [← h]
    exact stripTag_eq keyTag s r hs

/-- The hash parser is canonical: printing a parsed hash gives the input back. -/
theorem anyHash_toStr_fromStr (s : Str) (a : AnyHash)
    (h : AnyHash.fromStr s = some a) : AnyHash.toStr a = s := by
  unfold AnyHash.fromStr at h
  cases hs : stripTag hashTag s with
  | none => rw [hs] at h; exact Option.noConfusion h
  | some r =>
    rw [hs] at h
    injection h with h
    rw [← h]
    exact stripTag_eq hashTag s r hs

/-- The algorithm parser is canonical: printing a parsed algorithm name gives
the input back. -/
theorem hashAlgorithm_toStr_fromStr (s : Str) (a : HashAlgorithm)
    (h : HashAlgorithm.fromStr s = some a) : HashAlgorithm.toStr a = s := by
  unfold HashAlgorithm.fromStr at h
  split at h
  · rename_i hc
    cases a
    rw [hc]
    rfl
  · exact Option.noConfusion h

end Crypto

namespace Component

/-- An entry whose fields parse converts to an inner entry, and converting
back returns the original entry (the parsers are canonical). -/
theorem convEntry_encodes (e : OperatorEntry) (h : entryEncodesB e = true) :
    ∃ w, convEntry e = Except.ok w ∧ convBackEntry w = Except.ok e := by
  cases e with
  | operatorInit i =>
    simp only [entryEncodesB, Bool.and_eq_true, Option.isSome_iff_exists] at h
    obtain ⟨⟨a, ha⟩, ⟨k, hk⟩⟩ := h
    refine ⟨Proto.OperatorEntry.init a k, ?_, ?_⟩
    · simp [convEntry, ha, hk]
    · cases i
      simp only [convBackEntry]
      rw [Crypto.hashAlgorithm_toStr_fromStr _ _ ha, Crypto.publicKey_toStr_fromStr _ _ hk]
  | operatorGrantFlat g =>
    simp only [entryEncodesB, Option.isSome_iff_exists] at h
    obtain ⟨k, hk⟩ := h
    refine ⟨Proto.OperatorEntry.grantFlat k (permOfWit g.permission), ?_, ?_⟩
    · simp [convEntry, hk]
    · cases g with
      | mk key perm =>
        cases perm
        simp only [permOfWit, convBackEntry]
        rw [Crypto.publicKey_toStr_fromStr _ _ hk]
  | operatorRevokeFlat v =>
    refine ⟨Proto.OperatorEntry.revokeFlat v.key (permOfWit v.permission), rfl, ?_⟩
    cases v with
    | mk key perm =>
      cases perm
      rfl

/-- Entry sequences whose fields all parse convert to inner entries and back. -/
theorem convEntries_encodes (es : List OperatorEntry) (h : ∀ e ∈ es, entryEncodesB e = true) :
    ∃ ws, convEntries es = Except.ok ws ∧ convBackEntries ws = Except.ok es := by
  induction es with
  | nil => exact ⟨[], rfl, rfl⟩
  | cons e es ih =>
    obtain ⟨w, hw1, hw2⟩ := convEntry_encodes e (h e (by simp))
    obtain ⟨ws, hws1, hws2⟩ := ih (fun x hx => h x (by simp [hx]))
    refine ⟨w :: ws, ?_, ?_⟩
    · simp [convEntries, hw1, hws1]
    · simp [convBackEntries, hw2, hws2]

/-- A previous reference that parses converts to an inner digest whose
textual form is the original reference. -/
theorem convPrev_parses (p : Option Str) (h : prevParsesB p = true) :
    ∃ q, convPrev p = Except.ok q ∧ q.map Crypto.AnyHash.toStr = p := by
  cases p with
  | none => exact ⟨none, rfl, rfl⟩
  | some s =>
    simp only [prevParsesB, Option.isSome_iff_exists] at h
    obtain ⟨a, ha⟩ := h
    refine ⟨some a, ?_, ?_⟩
    · simp [convPrev, ha]
    · simp [Crypto.anyHash_toStr_fromStr _ _ ha]

/-- On a normalized in-range timestamp the conversion of `encode` is exact:
no wrapping and no carry occur. -/
theorem encodeTimestamp_exact (ts : Timestamp)
    (h1 : 0 ≤ ts.seconds) (h2 : ts.seconds < 2 ^ 63)
    (h3 : 0 ≤ ts.nanos) (h4 : ts.nanos < 10 ^ 9) :
    encodeTimestamp ts = some (Proto.SysTime.mk ts.seconds ts.nanos.toNat) := by
  unfold encodeTimestamp toU64 toU32
  have hs : ts.seconds.emod (2 ^ 64) = ts.seconds := Int.emod_eq_of_lt h1 (by omega)
  have hn : ts.nanos.emod (2 ^ 32) = ts.nanos := Int.emod_eq_of_lt h3 (by omega)
  rw [hs, hn]
  have hpow : (10 : Nat) ^ 9 = 1000000000 := by norm_num
  have hpi : (10 : Int) ^ 9 = 1000000000 := by norm_num
  rw [hpi] at h4
  rw [hpow]
  rw [if_neg (by omega)]
  have e1 : Int.ofNat (ts.seconds.toNat + ts.nanos.toNat / 1000000000) = ts.seconds := by
    simp only [Int.ofNat_eq_coe]
    omega
  have e2 : ts.nanos.toNat % 1000000000 = ts.nanos.toNat := by omega
  rw [e1, e2]

/-- The signed 64-bit cast is the identity below `2^63`. -/
theorem i64ofNat_exact (n : Nat) (h : n < 2 ^ 63) : i64ofNat n = (n : Int) := by
  unfold i64ofNat
  split <;> omega

/-- The signed 32-bit cast is the identity below `2^31`. -/
theorem i32ofNat_exact (n : Nat) (h : n < 2 ^ 31) : i32ofNat n = (n : Int) := by
  unfold i32ofNat
  split <;> omega

end Component

/-- An inner entry classified with a conversion errno makes the conversion
loop fail with exactly that errno. -/
theorem convBackEntry_err (e : Proto.OperatorEntry) (err : Component.OperatorDecodeErrno)
    (h : Component.entryConvErrno e = some err) : Component.convBackEntry e = Except.error err := by
  cases e with
  | init a k => exact Option.noConfusion h
  | grantFlat k p =>
    cases p with
    | commit => exact Option.noConfusion h
    | other t =>
      injection h with h
      rw [← h]
      rfl
  | revokeFlat kid p =>
    cases p with
    | commit => exact Option.noConfusion h
    | other t =>
      injection h with h
      rw [← h]
      rfl
  | unknown t =>
    injection h with h
    rw [← h]
    rfl

/-- An inner entry with no conversion errno converts cleanly. -/
theorem convBackEntry_ok (e : Proto.OperatorEntry)
    (h : Component.entryConvErrno e = none) : ∃ w, Component.convBackEntry e = Except.ok w := by
  cases e with
  | init a k => exact ⟨_, rfl⟩
  | grantFlat k p =>
    cases p with
    | commit => exact ⟨_, rfl⟩
    | other t => exact Option.noConfusion h
  | revokeFlat kid p =>
    cases p with
    | commit => exact ⟨_, rfl⟩
    | other t => exact Option.noConfusion h
  | unknown t => exact Option.noConfusion h

/-- The conversion loop surfaces the errno of the first offending entry. -/
theorem convBackEntries_err (es : List Proto.OperatorEntry) (err : Component.OperatorDecodeErrno)
    (h : es.findSome? Component.entryConvErrno = some err) :
    Component.convBackEntries es = Except.error err := by
  induction es with
  | nil => exact Option.noConfusion h
  | cons e es ih =>
    rw [List.findSome?_cons] at h
    cases hce : Component.entryConvErrno e with
    | some er2 =>
      rw [hce] at h
      injection h with h
      rw [← h]
      simp [Component.convBackEntries, convBackEntry_err e er2 hce]
    | none =>
      rw [hce] at h
      obtain ⟨w, hw⟩ := convBackEntry_ok e hce
      simp [Component.convBackEntries, hw, ih h]

/-- A state accepted by validation always carries a head: the committed state
is built with the new record's digest as head. -/
theorem validate_ok_head (st : Proto.LogState) (env : Proto.ProtoEnvelope) (st2 : Proto.LogState)
    (h : Proto.validate st env = Except.ok st2) : ∃ hd, st2.head = some hd := by
  unfold Proto.validate at h
  cases hr : Proto.runChecks st env with
  | error e => rw [hr] at h; exact Except.noConfusion h
  | ok res =>
    rw [hr] at h
    injection h with h
    rw [← h]
    exact ⟨_, rfl⟩

/-- The entry-conversion loop of `encode` fails with `PublicKeyParseFailure`
at the first entry whose key does not parse, provided the earlier entries
convert. -/
theorem convEntries_badKey (pre : List Component.OperatorEntry) (e : Component.OperatorEntry)
    (post : List Component.OperatorEntry)
    (hpre : ∀ x ∈ pre, Component.entryEncodesB x = true)
    (hbad : Component.entryBadKeyB e = true) :
    Component.convEntries (pre ++ e :: post) =
      Except.error Component.OperatorEncodeErrno.publicKeyParseFailure := by
  induction pre with
  | nil =>
    have hce : Component.convEntry e =
        Except.error Component.OperatorEncodeErrno.publicKeyParseFailure := by
      cases e with
      | operatorInit i =>
        simp only [Component.entryBadKeyB, Bool.and_eq_true, Option.isSome_iff_exists,
          Option.isNone_iff_eq_none] at hbad
        obtain ⟨⟨a, ha⟩, hk⟩ := hbad
        simp [Component.convEntry, ha, hk]
      | operatorGrantFlat g =>
        simp only [Component.entryBadKeyB, Option.isNone_iff_eq_none] at hbad
        simp [Component.convEntry, hbad]
      | operatorRevokeFlat v => exact Bool.noConfusion hbad
    simp [Component.convEntries, hce]
  | cons x pre ih =>
    obtain ⟨w, hw, _⟩ := Component.convEntry_encodes x (hpre x (by simp))
    have ih2 := ih (fun y hy => hpre y (by simp [hy]))
    simp [Component.convEntries, hw, ih2]

/-- Claim C1, counterexample.  The claim states that every record whose prev,
hash algorithm and key fields parse and whose timestamp is representable
relative to the epoch round-trips through `encode` then `decode`.  The record
`rC1cex` has no entries, no previous reference, and the representable
timestamp of zero seconds and `10^9` nanoseconds; `Duration::new` carries the
nanoseconds into a whole second during `encode`, so decoding returns the
normalized timestamp of one second and zero nanoseconds, a record different
from the input. -/
theorem C1_roundtrip_counterexample :
    Component.tsRepresentable Inputs.rC1cex.timestamp ∧
    Component.prevParsesB Inputs.rC1cex.prev = true ∧
    Inputs.rC1cex.entries = [] ∧
    (Component.encode Inputs.rC1cex).map
        (fun e => e.map (fun enc => Component.decode enc.content_bytes)) ≠
      some (Except.ok (Except.ok Inputs.rC1cex)) := by decide

/-- Claim C1, amended.  For every record whose prev, hash algorithm and key
fields parse and whose timestamp is representable and normalized
(`0 ≤ seconds < 2^63`, `0 ≤ nanos < 10^9`), decoding the content bytes
produced by `encode` succeeds and returns a record equal to the input. -/
theorem C1_roundtrip_amended (r : Component.OperatorRecord) (h : Component.recWellFormed r) :
    ∃ enc, Component.encode r = some (Except.ok enc) ∧
      Component.decode enc.content_bytes = Except.ok r := by
  obtain ⟨hp, he, hs1, hs2, hn1, hn2⟩ := h
  obtain ⟨q, hq1, hq2⟩ := Component.convPrev_parses r.prev hp
  obtain ⟨ws, hw1, hw2⟩ := Component.convEntries_encodes r.entries he
  have hts := Component.encodeTimestamp_exact r.timestamp hs1 hs2 hn1 hn2
  have henc : Component.encode r = some (Except.ok (Component.EncodedOperatorRecord.mk
      (Proto.OperatorRecord.encode (Proto.OperatorRecord.mk q r.version
        (Proto.SysTime.mk r.timestamp.seconds r.timestamp.nanos.toNat) ws))
      (Crypto.AnyHash.toStr (Crypto.AnyHash.mk Crypto.HashAlgorithm.sha256 (Crypto.sha256Hash
        (Proto.OperatorRecord.encode (Proto.OperatorRecord.mk q r.version
          (Proto.SysTime.mk r.timestamp.seconds r.timestamp.nanos.toNat) ws))))))) := by
    simp only [Component.encode, hq1, hw1, hts]
  have hwr : Proto.OperatorRecord.decode
      (Proto.OperatorRecord.encode (Proto.OperatorRecord.mk q r.version
        (Proto.SysTime.mk r.timestamp.seconds r.timestamp.nanos.toNat) ws))
      = some (Proto.OperatorRecord.mk q r.version
          (Proto.SysTime.mk r.timestamp.seconds r.timestamp.nanos.toNat) ws) := by
    apply Proto.decode_encode
    · try dsimp only
      omega
    · try dsimp only
      omega
    · try dsimp only
      omega
  have hdec : Component.decode
      (Proto.OperatorRecord.encode (Proto.OperatorRecord.mk q r.version
        (Proto.SysTime.mk r.timestamp.seconds r.timestamp.nanos.toNat) ws)) = Except.ok r := by
    simp only [Component.decode, hwr, Component.durationSinceEpoch]
    rw [if_neg (by omega)]
    simp only [hw2, hq2]
    rw [Component.i64ofNat_exact _ (by omega), Component.i32ofNat_exact _ (by omega)]
    rw [Int.toNat_of_nonneg hs1, Int.toNat_of_nonneg hn1]
  exact ⟨_, henc, hdec⟩

/-- Claim C1, witness: the amended round trip evaluated on a concrete
well-formed record exercising every entry kind. -/
theorem C1_roundtrip_amended_witness : Component.recWellFormed Inputs.rRound ∧
    ∃ enc, Component.encode Inputs.rRound = some (Except.ok enc) ∧
      Component.decode enc.content_bytes = Except.ok Inputs.rRound :=
  ⟨by decide, C1_roundtrip_amended Inputs.rRound (by decide)⟩

/-- Claim C2: every call to `append` that returns a validation error — any
rejection, including signature-parse and decode failures before validation —
leaves the `LogState` identical; no partial mutation survives a rejection. -/
theorem C2_append_atomicity (st : Proto.LogState) (env : Component.Envelope)
    (e : Component.OperatorValidationError) (st2 : Proto.LogState)
    (h : Component.append st env = (Except.error e, st2)) : st2 = st := by
  unfold Component.append at h
  cases h1 : Crypto.Signature.fromStr env.signature with
  | none =>
    simp only [h1] at h
    exact (congrArg Prod.snd h).symm
  | some sig =>
    simp only [h1] at h
    cases h2 : Proto.OperatorRecord.decode env.content_bytes with
    | none =>
      simp only [h2] at h
      exact (congrArg Prod.snd h).symm
    | some contents =>
      simp only [h2] at h
      cases h3 : Proto.validate st (Proto.ProtoEnvelope.mk contents env.content_bytes env.key_id sig) with
      | error er =>
        simp only [h3] at h
        exact (congrArg Prod.snd h).symm
      | ok st3 =>
        simp only [h3] at h
        cases h4 : st3.head with
        | some hd =>
          simp only [h4] at h
          exact Except.noConfusion (congrArg Prod.fst h)
        | none =>
          obtain ⟨hd, hhd⟩ := validate_ok_head _ _ _ h3
          rw [h4] at hhd
          exact Option.noConfusion hhd

/-- Claim C2, witness: a rejected append (unparseable signature) on the empty
state returns that same state. -/
theorem C2_append_atomicity_witness :
    Component.append Proto.LogState.default Inputs.envSigBad =
      (Except.error (Component.OperatorValidationError.signatureParseFailure Component.sigParseMsg),
        Proto.LogState.default) ∧
    (Component.append Proto.LogState.default Inputs.envSigBad).2 = Proto.LogState.default :=
  ⟨by decide,
   C2_append_atomicity Proto.LogState.default Inputs.envSigBad
     (Component.OperatorValidationError.signatureParseFailure Component.sigParseMsg)
     (Component.append Proto.LogState.default Inputs.envSigBad).2 (by decide)⟩

/-- Claim C3, counterexample.  The claim states that a malformed key field in
any entry — including `RevokeFlat` — makes `encode` fail with
`PublicKeyParseFailure`.  But the source converts a `RevokeFlat` key with
`.into()` and never parses it: on a record whose only entry is a `RevokeFlat`
carrying a string that is not a well-formed key, `encode` succeeds. -/
theorem C3_publicKeyParse_counterexample :
    Crypto.PublicKey.fromStr Inputs.badKeyStr = none ∧
    Inputs.rC3cex.entries =
      [Component.OperatorEntry.operatorRevokeFlat
        (Component.OperatorRevokeFlat.mk Inputs.badKeyStr Component.OperatorPermission.commit)] ∧
    (Component.encode Inputs.rC3cex).map Except.isOk = some true ∧
    Component.encode Inputs.rC3cex ≠
      some (Except.error Component.OperatorEncodeErrno.publicKeyParseFailure) := by decide

/-- Claim C3, amended.  For `Init` entries (whose algorithm parses) and
`GrantFlat` entries, a key field that is not a well-formed public key
encoding makes `encode` fail with `PublicKeyParseFailure`, provided the
previous reference parses and the earlier entries convert; `RevokeFlat` keys
are taken verbatim as key identities and are never parsed as public keys. -/
theorem C3_publicKeyParse_amended (rec : Component.OperatorRecord)
    (pre : List Component.OperatorEntry) (e : Component.OperatorEntry)
    (post : List Component.OperatorEntry)
    (hsplit : rec.entries = pre ++ e :: post)
    (hp : Component.prevParsesB rec.prev = true)
    (hpre : ∀ x ∈ pre, Component.entryEncodesB x = true)
    (hbad : Component.entryBadKeyB e = true) :
    Component.encode rec =
      some (Except.error Component.OperatorEncodeErrno.publicKeyParseFailure) := by
  obtain ⟨q, hq1, _⟩ := Component.convPrev_parses rec.prev hp
  have h2 := convEntries_badKey pre e post hpre hbad
  rw [← hsplit] at h2
  simp only [Component.encode, hq1, h2]

/-- Claim C3, witness: a `GrantFlat` entry with a malformed key makes the
concrete encode call fail with `PublicKeyParseFailure`. -/
theorem C3_publicKeyParse_amended_witness :
    Component.encode Inputs.rC3grant =
      some (Except.error Component.OperatorEncodeErrno.publicKeyParseFailure) :=
  C3_publicKeyParse_amended Inputs.rC3grant []
    (Component.OperatorEntry.operatorGrantFlat
      (Component.OperatorGrantFlat.mk Inputs.badKeyStr Component.OperatorPermission.commit))
    [] rfl (by decide) (by decide) (by decide)

/-- Claim C4: every envelope `append` accepts yields the `RecordId` of the
new head — the textual digest held by the state after the successful
validation; rejections return a typed validation error (the error half is the
result type itself). -/
theorem C4_append_returns_head (st : Proto.LogState) (env : Component.Envelope)
    (rid : Component.RecordId) (st2 : Proto.LogState)
    (h : Component.append st env = (Except.ok rid, st2)) :
    ∃ hd, st2.head = some hd ∧ rid = hd.digest.toStr := by
  unfold Component.append at h
  cases h1 : Crypto.Signature.fromStr env.signature with
  | none =>
    simp only [h1] at h
    exact Except.noConfusion (congrArg Prod.fst h)
  | some sig =>
    simp only [h1] at h
    cases h2 : Proto.OperatorRecord.decode env.content_bytes with
    | none =>
      simp only [h2] at h
      exact Except.noConfusion (congrArg Prod.fst h)
    | some contents =>
      simp only [h2] at h
      cases h3 : Proto.validate st (Proto.ProtoEnvelope.mk contents env.content_bytes env.key_id sig) with
      | error er =>
        simp only [h3] at h
        exact Except.noConfusion (congrArg Prod.fst h)
      | ok st3 =>
        simp only [h3] at h
        cases h4 : st3.head with
        | some hd =>
          simp only [h4] at h
          have h5 : st3 = st2 := congrArg Prod.snd h
          refine ⟨hd, ?_, ?_⟩
          · rw [← h5]
            exact h4
          · exact (Except.ok.inj (congrArg Prod.fst h)).symm
        | none =>
          simp only [h4] at h
          exact Except.noConfusion (congrArg Prod.fst h)

/-- Claim C4, witness: the concrete founding append is accepted and returns
exactly the new head digest. -/
theorem C4_append_returns_head_witness :
    Component.append Proto.LogState.default Inputs.envInit =
      (Except.ok Inputs.ridInit, (Component.append Proto.LogState.default Inputs.envInit).2) ∧
    ∃ hd, ((Component.append Proto.LogState.default Inputs.envInit).2).head = some hd ∧
      Inputs.ridInit = hd.digest.toStr :=
  ⟨by decide,
   C4_append_returns_head Proto.LogState.default Inputs.envInit Inputs.ridInit
     (Component.append Proto.LogState.default Inputs.envInit).2 (by decide)⟩

/-- Claim C5: for every byte sequence given to `decode`, malformed or
truncated input is rejected with `FailedToDecode`; when the bytes decode to a
record with a post-epoch timestamp, an entry list whose first offending entry
is outside the closed variant set is rejected with `UnknownOperatorEntry`,
and one whose first offending entry carries a permission outside the closed
set is rejected with `UnknownOperatorPermission`. -/
theorem C5_decode_errors (bs : List Nat) :
    (Proto.OperatorRecord.decode bs = none →
      Component.decode bs = Except.error Component.OperatorDecodeErrno.failedToDecode) ∧
    (∀ r, Proto.OperatorRecord.decode bs = some r → 0 ≤ r.timestamp.secs →
      (r.entries.findSome? Component.entryConvErrno =
          some Component.OperatorDecodeErrno.unknownOperatorEntry →
        Component.decode bs = Except.error Component.OperatorDecodeErrno.unknownOperatorEntry) ∧
      (r.entries.findSome? Component.entryConvErrno =
          some Component.OperatorDecodeErrno.unknownOperatorPermission →
        Component.decode bs = Except.error Component.OperatorDecodeErrno.unknownOperatorPermission)) := by
  constructor
  · intro h
    simp [Component.decode, h]
  · intro r hr hts
    constructor <;> intro hf <;>
      simp only [Component.decode, hr, Component.durationSinceEpoch,
        if_neg (by omega : ¬r.timestamp.secs < 0), convBackEntries_err r.entries _ hf]

/-- Claim C5, witness: the empty input fails to decode, concrete bytes
carrying an unknown entry tag are rejected with `UnknownOperatorEntry`, and
concrete bytes carrying an unknown permission tag with
`UnknownOperatorPermission`. -/
theorem C5_decode_errors_witness :
    Component.decode [] = Except.error Component.OperatorDecodeErrno.failedToDecode ∧
    Component.decode (Proto.OperatorRecord.encode Inputs.rUnknownEntry) =
      Except.error Component.OperatorDecodeErrno.unknownOperatorEntry ∧
    Component.decode (Proto.OperatorRecord.encode Inputs.rUnknownPerm) =
      Except.error Component.OperatorDecodeErrno.unknownOperatorPermission :=
  ⟨(C5_decode_errors []).1 (by decide),
   ((C5_decode_errors (Proto.OperatorRecord.encode Inputs.rUnknownEntry)).2 Inputs.rUnknownEntry
     (by decide) (by decide)).1 (by decide),
   ((C5_decode_errors (Proto.OperatorRecord.encode Inputs.rUnknownPerm)).2 Inputs.rUnknownPerm
     (by decide) (by decide)).2 (by decide)⟩

/-- Claim C6: every call to `log_id` returns the same value, the identifier
derived from the fixed operator-log label under the primitive hash algorithm,
independent of any record content or log state; the cache starts empty, is
filled on first use, and afterwards always holds exactly that value. -/
theorem C6_log_id_deterministic (c : Option Str)
    (h : c = none ∨ c = some Component.logIdValue) :
    Component.log_id c = (Component.logIdValue, some Component.logIdValue) := by
  rcases h with h | h <;> subst h <;> rfl

/-- Claim C6, witness: the first call, on the empty cache, returns the
derived identifier and fills the cache with it. -/
theorem C6_log_id_deterministic_witness :
    Component.log_id none = (Component.logIdValue, some Component.logIdValue) :=
  C6_log_id_deterministic none (Or.inl rfl)

/-- Claim C7: `encode` is deterministic — it is a pure function, so equal
records give identical results — and the `record_id` it returns is the hash
of exactly the `content_bytes` it returns, in textual digest form. -/
theorem C7_encode_deterministic_record_id (r1 r2 : Component.OperatorRecord)
    (enc : Component.EncodedOperatorRecord) (h : r1 = r2) :
    Component.encode r1 = Component.encode r2 ∧
      (Component.encode r1 = some (Except.ok enc) →
        enc.record_id =
          Crypto.AnyHash.toStr
            (Crypto.AnyHash.mk Crypto.HashAlgorithm.sha256 (Crypto.sha256Hash enc.content_bytes))) := by
  subst h
  refine ⟨rfl, fun he => ?_⟩
  unfold Component.encode at he
  cases h1 : Component.convPrev r1.prev with
  | error e => simp only [h1] at he; exact Except.noConfusion (Option.some.inj he)
  | ok q =>
    simp only [h1] at he
    cases h2 : Component.convEntries r1.entries with
    | error e => simp only [h2] at he; exact Except.noConfusion (Option.some.inj he)
    | ok ws =>
      simp only [h2] at he
      cases h3 : Component.encodeTimestamp r1.timestamp with
      | none => rw [h3] at he; exact Option.noConfusion he
      | some ts =>
        rw [h3] at he
        rw [← Except.ok.inj (Option.some.inj he)]

/-- Claim C7, witness: on the concrete record `rRound` the returned
`record_id` is the digest of the returned bytes. -/
theorem C7_encode_deterministic_record_id_witness :
    Inputs.encRound.record_id =
      Crypto.AnyHash.toStr
        (Crypto.AnyHash.mk Crypto.HashAlgorithm.sha256
          (Crypto.sha256Hash Inputs.encRound.content_bytes)) :=
  (C7_encode_deterministic_record_id Inputs.rRound Inputs.rRound Inputs.encRound rfl).2 (by decide)

/-- Claim C8: every byte sequence whose inner record decodes but whose
timestamp precedes the epoch — so it cannot be expressed as a duration since
the epoch — is rejected by `decode` with `FailedToDecode`. -/
theorem C8_decode_pre_epoch (bs : List Nat) (r : Proto.OperatorRecord)
    (h1 : Proto.OperatorRecord.decode bs = some r) (h2 : r.timestamp.secs < 0) :
    Component.decode bs = Except.error Component.OperatorDecodeErrno.failedToDecode := by
  simp [Component.decode, h1, Component.durationSinceEpoch, if_pos h2]

/-- Claim C8, witness: concrete bytes carrying a timestamp five seconds
before the epoch decode at the wire level yet are rejected. -/
theorem C8_decode_pre_epoch_witness :
    Component.decode (Proto.OperatorRecord.encode Inputs.rPreEpoch) =
      Except.error Component.OperatorDecodeErrno.failedToDecode :=
  C8_decode_pre_epoch (Proto.OperatorRecord.encode Inputs.rPreEpoch) Inputs.rPreEpoch
    (by decide) (by decide)

/-- Claim C9: when the signature string parses but the content bytes fail to
decode as an operator record, `append` returns
`FailedToDecodeOperatorRecord` — a rejection surfaced through the validation
error type — and the log state is untouched: the returned state is exactly
the input state, and in the source the return happens before `get_state` is
reached. -/
theorem C9_append_decode_failure (st : Proto.LogState) (env : Component.Envelope)
    (sig : Crypto.Signature)
    (h1 : Crypto.Signature.fromStr env.signature = some sig)
    (h2 : Proto.OperatorRecord.decode env.content_bytes = none) :
    Component.append st env =
      (Except.error Component.OperatorValidationError.failedToDecodeOperatorRecord, st) := by
  unfold Component.append
  simp only [h1, h2]

/-- Claim C9, witness: a concrete envelope with a parsing signature and empty
content bytes is rejected with `FailedToDecodeOperatorRecord`, state
unchanged. -/
theorem C9_append_decode_failure_witness :
    Component.append Proto.LogState.default Inputs.envNoDecode =
      (Except.error Component.OperatorValidationError.failedToDecodeOperatorRecord,
        Proto.LogState.default) :=
  C9_append_decode_failure Proto.LogState.default Inputs.envNoDecode
    (Crypto.Signature.mk [1]) (by decide) (by decide)

/-- Claim C10, counterexample.  The claim states that negative or
out-of-range timestamp fields are reinterpreted as large unsigned values
rather than rejected.  At seconds `-1` and nanos `-1` the casts give the
largest unsigned 64-bit and 32-bit values, the nanosecond carry of 4
overflows the unsigned 64-bit seconds counter, and `Duration::new` panics:
the program aborts instead of reinterpreting the fields, and `encode` on an
otherwise identical record succeeds or aborts depending on the timestamp
alone. -/
theorem C10_encode_timestamp_counterexample :
    Component.encodeTimestamp (Component.Timestamp.mk (-1) (-1)) = none ∧
    Component.encode Inputs.rC10abort = none ∧
    (Component.encode Inputs.rC10ok).map Except.isOk = some true := by decide

/-- Claim C10, amended.  `encode` converts the timestamp by casting seconds
from `i64` to `u64` and nanos from `i32` to `u32` (wrapping modulo `2^64` and
`2^32`) before building the duration added to the epoch.  When the wrapped
seconds plus the nanosecond carry fit in an unsigned 64-bit counter the
duration is built from exactly those values (first conjunct), so negative or
out-of-range fields in that region are reinterpreted as large unsigned
values; when they do not fit, `Duration::new` panics and the call aborts
(second conjunct).  Timestamps with `0 ≤ seconds < 2^63` and
`0 ≤ nanos < 10^9` are preserved exactly (third conjunct); the fourth
conjunct shows the reinterpretation at the concrete negative input of `-5`
seconds. -/
theorem C10_encode_timestamp_amended :
    (∀ ts : Component.Timestamp,
      Component.toU64 ts.seconds + Component.toU32 ts.nanos / 10 ^ 9 < 2 ^ 64 →
      Component.encodeTimestamp ts =
        some (Proto.SysTime.mk
          (Int.ofNat (Component.toU64 ts.seconds + Component.toU32 ts.nanos / 10 ^ 9))
          (Component.toU32 ts.nanos % 10 ^ 9))) ∧
    (∀ ts : Component.Timestamp,
      2 ^ 64 ≤ Component.toU64 ts.seconds + Component.toU32 ts.nanos / 10 ^ 9 →
      Component.encodeTimestamp ts = none) ∧
    (∀ ts : Component.Timestamp,
      0 ≤ ts.seconds → ts.seconds < 2 ^ 63 → 0 ≤ ts.nanos → ts.nanos < 10 ^ 9 →
      Component.encodeTimestamp ts = some (Proto.SysTime.mk ts.seconds ts.nanos.toNat)) ∧
    Component.encodeTimestamp (Component.Timestamp.mk (-5) 0) =
      some (Proto.SysTime.mk (2 ^ 64 - 5) 0) := by
  refine ⟨fun ts h => ?_, fun ts h => ?_, Component.encodeTimestamp_exact, by decide⟩
  · unfold Component.encodeTimestamp
    rw [if_neg (by omega)]
  · unfold Component.encodeTimestamp
    rw [if_pos h]

/-- Claim C10, witness: the three quantified conjuncts evaluated at concrete
inputs — a zero timestamp through the cast construction, the aborting input
of both fields `-1`, and exact preservation at a normalized timestamp. -/
theorem C10_encode_timestamp_amended_witness :
    Component.encodeTimestamp (Component.Timestamp.mk 0 0) =
      some (Proto.SysTime.mk
        (Int.ofNat (Component.toU64 0 + Component.toU32 0 / 10 ^ 9))
        (Component.toU32 0 % 10 ^ 9)) ∧
    Component.encodeTimestamp (Component.Timestamp.mk (-1) (-1)) = none ∧
    Component.encodeTimestamp (Component.Timestamp.mk 5 6) = some (Proto.SysTime.mk 5 6) :=
  ⟨C10_encode_timestamp_amended.1 (Component.Timestamp.mk 0 0) (by decide),
   C10_encode_timestamp_amended.2.1 (Component.Timestamp.mk (-1) (-1)) (by decide),
   C10_encode_timestamp_amended.2.2.1 (Component.Timestamp.mk 5 6)
     (by decide) (by decide) (by decide) (by decide)⟩
